import Mathlib

/-!
Verification development for the Claude persona of jupyter-ai.

The definitions below are a shallow embedding of the Python sources:
  - `tool_adapter.py`   — rendering of tool-call UI elements,
  - `streaming_processor.py` — the StreamingProcessor class,
  - `claude.py`         — the ClaudeAgentPersona client lifecycle,
  - `claude_persona.py` — message filtering and conversation history.

Python `dict`s (which preserve insertion order) are embedded as ordered
association lists, Python lists as `List`, optional/absent attributes as
`Option`.  Logging and awareness updates are side-effect free from the
point of view of the chat document and are elided.
-/

set_option maxHeartbeats 1000000
set_option maxRecDepth 100000

namespace JupyterAI

/-! ## Python string primitives -/

/-- Characters stripped by Python `str.strip()` (ASCII whitespace). -/
def isPySpace (c : Char) : Bool :=
  c = ' ' || c = '\t' || c = '\n' || c = '\x0d' || c = '\x0b' || c = '\x0c'

/-- `str.strip()` on a character list: drop whitespace at both ends. -/
def stripChars (l : List Char) : List Char :=
  ((l.dropWhile isPySpace).reverse.dropWhile isPySpace).reverse

/-- Python `s.strip()`. -/
def pyStrip (s : String) : String := String.mk (stripChars s.data)

/-- `pat` is a prefix of `hay` (character lists). -/
def listIsPrefix : List Char → List Char → Bool
  | [], _ => true
  | _ :: _, [] => false
  | a :: as, b :: bs => a = b && listIsPrefix as bs

/-- Substring search on character lists (Python `pat in hay` for nonempty
`pat`). -/
def listContainsSub : List Char → List Char → Bool
  | hay, pat =>
    match hay with
    | [] => pat.isEmpty
    | _ :: t => listIsPrefix pat hay || listContainsSub t pat

/-- Python `pat in hay` (substring containment; all patterns used in the
source are nonempty). -/
def strContains (hay pat : String) : Bool := listContainsSub hay.data pat.data

/-! ## Ordered association lists (Python `dict`) -/

/-- Lookup in an insertion-ordered association list (`d[k]` / `d.get(k)`). -/
def assocFind {α : Type} (m : List (String × α)) (k : String) : Option α :=
  match m with
  | [] => none
  | (k', v) :: t => if k' = k then some v else assocFind t k

/-- Key membership (`k in d`). -/
def assocMem {α : Type} (m : List (String × α)) (k : String) : Bool :=
  (assocFind m k).isSome

/-- Assignment `d[k] = v`: replace in place when the key exists (Python
dicts keep the original position), append otherwise. -/
def assocSet {α : Type} (m : List (String × α)) (k : String) (v : α) :
    List (String × α) :=
  match m with
  | [] => [(k, v)]
  | (k', v') :: t => if k' = k then (k, v) :: t else (k', v') :: assocSet t k v

/-- The keys of an association list, in insertion order. -/
def assocKeys {α : Type} (m : List (String × α)) : List String :=
  m.map Prod.fst

/-! ## tool_adapter.py — rendering of `<jai-tool-call>` elements -/

/-- The output object attached to a tool call by the streaming processor:
a dict with keys tool_call_id, role, name, content (json-dumped in the
source before storage). -/
structure ToolOutput where
  tool_call_id : String
  role : String
  name : String
  content : String
deriving DecidableEq, Repr

/-- A tool-call record stored in `StreamingProcessor.tool_calls`: a dict
with keys tool_id, index, type, function_name, function_args, and an
output key added once a result arrives (modelled as `Option`). -/
structure ToolCallInfo where
  tool_id : String
  index : Nat
  type : String
  function_name : String
  function_args : String
  output : Option ToolOutput
deriving DecidableEq, Repr

/-- JSON string escaping used by `json.dumps` (quotes and backslashes; the
remaining escapes do not occur in the concrete inputs considered). -/
def jsonEscape (s : String) : String :=
  String.join (s.data.map fun c =>
    if c = '"' then "\\\"" else if c = '\\' then "\\\\" else String.mk [c])

/-- `json.dumps(output_obj)` with the key insertion order of the source. -/
def jsonDumpsOutput (o : ToolOutput) : String :=
  "\x7b\"tool_call_id\": \"" ++ jsonEscape o.tool_call_id ++
  "\", \"role\": \"" ++ jsonEscape o.role ++
  "\", \"name\": \"" ++ jsonEscape o.name ++
  "\", \"content\": \"" ++ jsonEscape o.content ++ "\"\x7d"

/-- HTML escaping applied by the jinja2 `xmlattr` filter to attribute
values. -/
def xmlEscape (s : String) : String :=
  String.join (s.data.map fun c =>
    if c = '&' then "&amp;"
    else if c = '<' then "&lt;"
    else if c = '>' then "&gt;"
    else if c = '"' then "&#34;"
    else if c = '\x27' then "&#39;"
    else String.mk [c])

/-- The jinja2 `xmlattr` rendering of a tool-call props dict, attributes in
dict insertion order; the `output` attribute is present only when set. -/
def xmlattrProps (info : ToolCallInfo) : String :=
  "tool_id=\"" ++ xmlEscape info.tool_id ++
  "\" index=\"" ++ toString info.index ++
  "\" type=\"" ++ xmlEscape info.type ++
  "\" function_name=\"" ++ xmlEscape info.function_name ++
  "\" function_args=\"" ++ xmlEscape info.function_args ++ "\"" ++
  (match info.output with
   | some o => " output=\"" ++ xmlEscape (jsonDumpsOutput o) ++ "\""
   | none => "")

/-- `render_tool_calls`: the stripped `JAI_TOOL_CALL_TEMPLATE` emits, per
props entry, a newline, the `<jai-tool-call …>` open tag, a newline, the
closing tag and a final newline. -/
def render_tool_calls (infos : List ToolCallInfo) : String :=
  String.join (infos.map fun info =>
    "\n<jai-tool-call " ++ xmlattrProps info ++ ">\n</jai-tool-call>\n")

/-! ## streaming_processor.py — state and event handling

`message_parts` is a Python list of strings; every entry is either a text
fragment appended verbatim or the string `render_tool_calls([info])` for a
snapshot `info` of a tool call.  The embedding keeps the pre-image of the
(pure, deterministic) rendering so that the origin of each part stays
visible; `renderPart` recovers the stored string. -/

/-- One entry of `message_parts`. -/
inductive Part where
  | text (s : String)
  | toolUI (info : ToolCallInfo)
deriving DecidableEq, Repr

/-- The string actually stored in `message_parts` for a part. -/
def renderPart : Part → String
  | .text s => s
  | .toolUI info => render_tool_calls [info]

/-- `"".join(self.message_parts).strip()` — the document body pushed to
YChat. -/
def renderDoc (parts : List Part) : String :=
  pyStrip (String.join (parts.map renderPart))

/-- A sink operation performed on the chat: `ychat.add_message` (create) or
`ychat.update_message` (replace). -/
inductive SinkCall where
  | create (body : String)
  | replace (id : Nat) (body : String)
deriving DecidableEq, Repr

/-- The chat document store: messages as (id, body) pairs, ids handed out
by an increasing counter. -/
structure YChatState where
  messages : List (Nat × String)
  nextId : Nat
deriving DecidableEq, Repr

/-- Body of the chat message with the given id, if present. -/
def lookupBody (y : YChatState) (id : Nat) : Option String :=
  (y.messages.find? (fun p => p.1 = id)).map Prod.snd

/-- `ychat.update_message`: replace the body of the message with this id. -/
def setBody (msgs : List (Nat × String)) (id : Nat) (body : String) :
    List (Nat × String) :=
  msgs.map fun p => if p.1 = id then (id, body) else p

/-- The mutable state of one `StreamingProcessor` together with the chat it
writes to and the trace of sink calls it has issued. -/
structure ProcState where
  ychat : YChatState
  sinkTrace : List SinkCall
  message_id : Option Nat
  message_parts : List Part
  tool_calls : List (String × ToolCallInfo)
  tool_call_positions : List (String × Nat)
deriving DecidableEq, Repr

/-- A fresh processor over an empty chat. -/
def initState : ProcState :=
  { ychat := { messages := [], nextId := 0 }
    sinkTrace := []
    message_id := none
    message_parts := []
    tool_calls := []
    tool_call_positions := [] }

/-- `_update_message`: join the parts, then create the chat message on the
first call and update it in place on every later call. -/
def updateMessage (s : ProcState) : ProcState :=
  let body := renderDoc s.message_parts
  match s.message_id with
  | none =>
    let id := s.ychat.nextId
    { s with
      ychat := { messages := s.ychat.messages ++ [(id, body)], nextId := id + 1 }
      sinkTrace := s.sinkTrace ++ [SinkCall.create body]
      message_id := some id }
  | some id =>
    { s with
      ychat := { s.ychat with messages := setBody s.ychat.messages id body }
      sinkTrace := s.sinkTrace ++ [SinkCall.replace id body] }

/-- Content blocks of SDK messages.  `toolUseBlock` carries the serialized
arguments (`json.dumps(block.input)` is applied at the boundary);
`toolResultBlock` carries `str(block.content)`.  `otherBlock` stands for
any block type the handlers do not inspect. -/
inductive ContentBlock where
  | textBlock (text : String)
  | toolUseBlock (id : String) (name : String) (input : String)
  | toolResultBlock (tool_use_id : String) (content : String)
  | otherBlock
deriving DecidableEq, Repr

/-- One block step of `_handle_assistant_message`: text blocks are appended
verbatim; a tool-use block whose id is new creates the registry record,
appends its rendered UI at the tail and records that position; a known id
is ignored. -/
def handleAssistantBlock (s : ProcState) (b : ContentBlock) : ProcState :=
  match b with
  | .textBlock t => { s with message_parts := s.message_parts ++ [Part.text t] }
  | .toolUseBlock id name input =>
    if assocMem s.tool_calls id then s
    else
      let info : ToolCallInfo :=
        { tool_id := id
          index := s.tool_calls.length
          type := "function"
          function_name := name
          function_args := input
          output := none }
      let position := s.message_parts.length
      { s with
        tool_calls := assocSet s.tool_calls id info
        message_parts := s.message_parts ++ [Part.toolUI info]
        tool_call_positions := assocSet s.tool_call_positions id position }
  | _ => s

/-- `_handle_assistant_message`: fold the blocks, then push one update. -/
def handleAssistantMessage (s : ProcState) (blocks : List ContentBlock) :
    ProcState :=
  updateMessage (blocks.foldl handleAssistantBlock s)

/-- One block step of `_handle_user_message`: a result block for a known id
overwrites the record's output, re-renders the part at the recorded
position when one exists, and pushes an update; an unknown id is only
logged. -/
def handleUserBlock (s : ProcState) (b : ContentBlock) : ProcState :=
  match b with
  | .toolResultBlock tid content =>
    match assocFind s.tool_calls tid with
    | some info =>
      let out : ToolOutput :=
        { tool_call_id := tid
          role := "tool"
          name := info.function_name
          content := content }
      let info' := { info with output := some out }
      let s1 := { s with tool_calls := assocSet s.tool_calls tid info' }
      let s2 :=
        match assocFind s1.tool_call_positions tid with
        | some p => { s1 with message_parts := s1.message_parts.set p (Part.toolUI info') }
        | none => s1
      updateMessage s2
    | none => s
  | _ => s

/-- `_handle_user_message`: process each block in order. -/
def handleUserMessage (s : ProcState) (blocks : List ContentBlock) : ProcState :=
  blocks.foldl handleUserBlock s

/-- `pre_tool_hook`: unconditionally (re)store the record for this id —
the index field is computed before the assignment — then push an update.
No message part is appended and no position is recorded. -/
def preToolHook (s : ProcState) (toolName toolInput id : String) : ProcState :=
  let info : ToolCallInfo :=
    { tool_id := id
      index := s.tool_calls.length
      type := "function"
      function_name := toolName
      function_args := toolInput
      output := none }
  updateMessage { s with tool_calls := assocSet s.tool_calls id info }

/-- `post_tool_hook`: when the id is known, overwrite the record's output
and push an update; otherwise do nothing. -/
def postToolHook (s : ProcState) (toolName toolResponse id : String) : ProcState :=
  match assocFind s.tool_calls id with
  | some info =>
    let out : ToolOutput :=
      { tool_call_id := id
        role := "tool"
        name := toolName
        content := toolResponse }
    updateMessage { s with tool_calls := assocSet s.tool_calls id { info with output := some out } }
  | none => s

/-- The events one turn of `process_with_agent_sdk` consumes: the four SDK
message classes, the two hook callbacks the SDK runtime interleaves, and a
stream failure (an exception raised while iterating). -/
inductive SDKEvent where
  | assistantMsg (blocks : List ContentBlock)
  | userMsg (blocks : List ContentBlock)
  | resultMsg
  | systemMsg
  | preHook (toolName toolInput id : String)
  | postHook (toolName toolResponse id : String)
  | streamFailed (err : String)
deriving DecidableEq, Repr

/-- `_handle_message` / hook dispatch.  `ResultMessage` and `SystemMessage`
are only logged. -/
def handleEvent (s : ProcState) : SDKEvent → ProcState
  | .assistantMsg bs => handleAssistantMessage s bs
  | .userMsg bs => handleUserMessage s bs
  | .resultMsg => s
  | .systemMsg => s
  | .preHook n i id => preToolHook s n i id
  | .postHook n r id => postToolHook s n r id
  | .streamFailed _ => s

/-- The event loop of `process_with_agent_sdk` with its `try/except`: a
stream failure aborts the loop and the handler posts a NEW chat message
whose body prefixes the error text with "An error occurred: " (it does
not touch `message_id`). -/
def runEvents (s : ProcState) : List SDKEvent → ProcState
  | [] => s
  | SDKEvent.streamFailed err :: _ =>
    let body := "An error occurred: " ++ err
    let id := s.ychat.nextId
    { s with
      ychat := { messages := s.ychat.messages ++ [(id, body)], nextId := id + 1 }
      sinkTrace := s.sinkTrace ++ [SinkCall.create body] }
  | e :: rest => runEvents (handleEvent s e) rest

/-! ## claude.py — ClaudeAgentPersona client lifecycle

A constructed `ClaudeSDKClient` is identified by a creation counter, so
that "the same connection object" is expressible as equality of
identifiers and "constructed exactly once" as the final counter value. -/

/-- The persona's client state: `_sdk_client` (None until first use) plus
an instrumentation counter of `ClaudeSDKClient(...)` constructions. -/
structure PersonaState where
  sdk_client : Option Nat
  clientsCreated : Nat
deriving DecidableEq, Repr

/-- A freshly initialised `ClaudeAgentPersona`. -/
def initPersona : PersonaState := { sdk_client := none, clientsCreated := 0 }

/-- `_get_or_create_client`: construct and store a client only when none
exists, otherwise return the stored one. -/
def getOrCreateClient (s : PersonaState) : PersonaState × Nat :=
  match s.sdk_client with
  | some c => (s, c)
  | none =>
    let c := s.clientsCreated
    ({ sdk_client := some c, clientsCreated := c + 1 }, c)

/-- `process_message` restricted to its client handling: each prompt calls
`_get_or_create_client`; the rest of the body never writes `_sdk_client`.
Returns the final state and the client used by each prompt, in order. -/
def runPrompts (s : PersonaState) : Nat → PersonaState × List Nat
  | 0 => (s, [])
  | n + 1 =>
    let (s1, c) := getOrCreateClient s
    let (s2, cs) := runPrompts s1 n
    (s2, c :: cs)

/-! ## claude_persona.py — `_parse_claude_code_message` -/

/-- The `skip_patterns` list of `_parse_claude_code_message`, verbatim. -/
def skip_patterns : List String :=
  [ "ToolUseBlock("
  , "tool_use_id"
  , "tool_result"
  , "toolu_"
  , "\x7b\x27tool_use_id\x27:"
  , "\x27type\x27: \x27tool_result\x27"
  , "SystemMessage"
  , "session_id"
  , "duration_ms"
  , "total_cost_usd"
  , "usage"
  , "cache_"
  , "api_ms"
  , "num_turns"
  , "service_tier"
  , "model_id"
  , "mcp_servers"
  , "tools"
  , "permissionMode"
  , "name=\x27"
  , "input=\x7b"
  , "NotebookRead"
  , "NotebookEdit"
  , "Write"
  , "Read"
  , "Edit"
  , "Bash"
  , "LS"
  , "Grep"
  , "\x27content\x27: ["
  , "\x27type\x27: \x27text\x27" ]

/-- `any(pattern in s for pattern in skip_patterns)`. -/
def matchesAnySkip (s : String) : Bool :=
  skip_patterns.any fun p => strContains s p

/-- The duck-typed attributes of `msg.content` the parser distinguishes:
a list of blocks, a truthy non-list value, or nothing usable. -/
inductive ContentVal where
  | noContent
  | listContent (items : List (Option String × Option String))
  | strContent (s : String)
deriving DecidableEq, Repr

/-- A Python message object as seen by `_parse_claude_code_message`:
`str_repr` is `str(msg)`; `isStr` tells whether `msg` itself is a string
(then `str_repr` is that string); the remaining fields model
`hasattr`+truthiness of the attributes probed, in probe order.  A content
list item carries its `text` and `content` attributes (absent = `none`). -/
structure PyMsg where
  str_repr : String
  isStr : Bool
  result : Option String
  content : ContentVal
  textAttr : Option String
  hasDataDict : Bool
deriving DecidableEq, Repr

/-- One item of the content-list branch: `block.text` wins over
`block.content`; other blocks contribute nothing; a matching pattern
suppresses the item. -/
def parseContentItem (item : Option String × Option String) : String :=
  match item.1 with
  | some t => if matchesAnySkip t then "" else t
  | none =>
    match item.2 with
    | some c => if matchesAnySkip c then "" else c
    | none => ""

/-- `_parse_claude_code_message`: the three front gates (skip patterns,
length > 500, stripped leading brace/bracket) followed by the per-shape
extraction branches, in source order. -/
def parseClaudeCodeMessage (msg : PyMsg) : String :=
  let msgStr := msg.str_repr
  if matchesAnySkip msgStr then ""
  else if msgStr.length > 500 then ""
  else if (pyStrip msgStr).startsWith "\x7b" || (pyStrip msgStr).startsWith "[" then ""
  else if msg.isStr then msgStr
  else
    match msg.result with
    | some r => if matchesAnySkip r then "" else r
    | none =>
      match msg.content with
      | .listContent items => String.join (items.map parseContentItem)
      | .strContent c => if matchesAnySkip c then "" else c
      | .noContent =>
        match msg.textAttr with
        | some t => if matchesAnySkip t then "" else t
        | none => ""

/-! ## claude_persona.py — conversation history -/

/-- One conversation turn entry: a dict with keys messages, response,
timestamp; the raw SDK messages are kept as an uninterpreted list. -/
structure ConvEntry where
  messages : List String
  response : String
  timestamp : Nat
deriving DecidableEq, Repr

/-- `_update_conversation_state` for one chat path: append the new entry,
then keep only the last 5 when the list has grown beyond 5. -/
def updateConversationState (hist : List ConvEntry) (messages : List String)
    (full_response : String) (t : Nat) : List ConvEntry :=
  let hist' := hist ++ [{ messages := messages, response := full_response, timestamp := t }]
  if hist'.length > 5 then hist'.drop (hist'.length - 5) else hist'

/-- Python `l[-3:]`. -/
def lastThree (hist : List ConvEntry) : List ConvEntry :=
  hist.drop (hist.length - 3)

/-- Python `s[:200]`. -/
def pyTake200 (s : String) : String := String.mk (s.data.take 200)

/-- The formatted preview lines of `_get_recent_conversation_context`
(every stored entry is a dict holding a `'response'` key, so the dict
branch always applies). -/
def contextParts (recent : List ConvEntry) : List String :=
  recent.enum.map fun ie =>
    "Previous exchange " ++ toString (ie.1 + 1) ++ ": " ++ pyTake200 ie.2.response ++ "..."

/-- `_get_recent_conversation_context` for one chat path. -/
def getRecentConversationContext (hist : List ConvEntry) : Option String :=
  if hist.isEmpty then none
  else
    let recent := lastThree hist
    let parts := contextParts recent
    if parts.isEmpty then none else some (String.intercalate "\n" parts)

/-! ## Helper lemmas on association lists and `List.set` -/

theorem assocFind_assocSet_self {α : Type} (m : List (String × α)) (k : String)
    (v : α) : assocFind (assocSet m k v) k = some v := by
  induction m with
  | nil => simp [assocSet, assocFind]
  | cons h t ih =>
    obtain ⟨k', v'⟩ := h
    by_cases hk : k' = k
    · subst hk; simp [assocSet, assocFind]
    · simp [assocSet, assocFind, hk, ih]

theorem assocFind_assocSet_ne {α : Type} (m : List (String × α)) (k k' : String)
    (v : α) (h : k' ≠ k) : assocFind (assocSet m k v) k' = assocFind m k' := by
  have hk' : k ≠ k' := Ne.symm h
  induction m with
  | nil => simp [assocSet, assocFind, hk']
  | cons hd t ih =>
    obtain ⟨k₀, v₀⟩ := hd
    by_cases hk : k₀ = k
    · subst hk; simp [assocSet, assocFind, hk']
    · simp [assocSet, assocFind, hk, ih]

theorem assocSet_of_not_mem {α : Type} (m : List (String × α)) (k : String)
    (v : α) (h : assocMem m k = false) : assocSet m k v = m ++ [(k, v)] := by
  induction m with
  | nil => simp [assocSet]
  | cons hd t ih =>
    obtain ⟨k₀, v₀⟩ := hd
    by_cases hk : k₀ = k
    · subst hk
      simp [assocMem, assocFind] at h
    · simp only [assocMem, assocFind, if_neg hk] at h
      simp [assocSet, hk]
      exact ih h

theorem assocKeys_assocSet_of_mem {α : Type} (m : List (String × α)) (k : String)
    (v : α) (h : assocMem m k = true) :
    assocKeys (assocSet m k v) = assocKeys m := by
  induction m with
  | nil => simp [assocMem, assocFind] at h
  | cons hd t ih =>
    obtain ⟨k₀, v₀⟩ := hd
    by_cases hk : k₀ = k
    · subst hk; simp [assocSet, assocKeys]
    · simp [assocMem, assocFind, hk] at h
      simp [assocSet, assocKeys, hk] at ih ⊢
      exact ih h

theorem assocMem_iff_mem_keys {α : Type} (m : List (String × α)) (k : String) :
    assocMem m k = true ↔ k ∈ assocKeys m := by
  induction m with
  | nil => simp [assocMem, assocFind, assocKeys]
  | cons hd t ih =>
    obtain ⟨k₀, v₀⟩ := hd
    by_cases hk : k₀ = k
    · subst hk; simp [assocMem, assocFind, assocKeys]
    · simp [assocMem, assocFind, assocKeys, hk, Ne.symm hk] at ih ⊢
      exact ih

theorem mem_assocSet {α : Type} (m : List (String × α)) (k : String) (v : α)
    (kv : String × α) (h : kv ∈ assocSet m k v) : kv ∈ m ∨ kv = (k, v) := by
  induction m with
  | nil => simp [assocSet] at h; right; exact h
  | cons hd t ih =>
    obtain ⟨k₀, v₀⟩ := hd
    by_cases hk : k₀ = k
    · subst hk
      simp [assocSet] at h
      rcases h with h | h
      · right; exact h
      · left; simp [h]
    · simp [assocSet, hk] at h
      rcases h with h | h
      · left; simp [h]
      · rcases ih h with h' | h'
        · left; simp [h']
        · right; exact h'

theorem assocFind_mem {α : Type} (m : List (String × α)) (k : String) (v : α)
    (h : assocFind m k = some v) : (k, v) ∈ m := by
  induction m with
  | nil => simp [assocFind] at h
  | cons hd t ih =>
    obtain ⟨k₀, v₀⟩ := hd
    by_cases hk : k₀ = k
    · subst hk
      simp [assocFind] at h
      simp [h]
    · simp [assocFind, hk] at h
      exact List.mem_cons_of_mem _ (ih h)

theorem assocSet_assocSet {α : Type} (m : List (String × α)) (k : String)
    (v w : α) : assocSet (assocSet m k v) k w = assocSet m k w := by
  induction m with
  | nil => simp [assocSet]
  | cons hd t ih =>
    obtain ⟨k₀, v₀⟩ := hd
    by_cases hk : k₀ = k
    · subst hk; simp [assocSet]
    · simp [assocSet, hk, ih]

theorem set_getElem?_self {α : Type} (l : List α) (i : Nat) (a : α)
    (h : l[i]? = some a) : l.set i a = l := by
  induction l generalizing i with
  | nil => simp at h
  | cons x t ih =>
    cases i with
    | zero => simp at h; simp [h]
    | succ j => simp at h; simp [List.set, ih j h]

theorem all_set {α : Type} (l : List α) (P : α → Bool) (i : Nat) (x : α)
    (hl : l.all P = true) (hx : P x = true) : (l.set i x).all P = true := by
  induction l generalizing i with
  | nil => simp
  | cons y t ih =>
    rw [List.all_cons, Bool.and_eq_true] at hl
    cases i with
    | zero =>
      rw [List.set, List.all_cons, Bool.and_eq_true]
      exact ⟨hx, hl.2⟩
    | succ j =>
      rw [List.set, List.all_cons, Bool.and_eq_true]
      exact ⟨hl.1, ih j hl.2⟩

/-! ## Field-preservation lemmas for the processor operations -/

theorem updateMessage_message_parts (s : ProcState) :
    (updateMessage s).message_parts = s.message_parts := by
  cases h : s.message_id <;> simp [updateMessage, h]

theorem updateMessage_tool_calls (s : ProcState) :
    (updateMessage s).tool_calls = s.tool_calls := by
  cases h : s.message_id <;> simp [updateMessage, h]

theorem updateMessage_tool_call_positions (s : ProcState) :
    (updateMessage s).tool_call_positions = s.tool_call_positions := by
  cases h : s.message_id <;> simp [updateMessage, h]

/-! ## Claim theorems -/

theorem handleAssistantBlock_of_mem (s : ProcState) (id name input : String)
    (h : assocMem s.tool_calls id = true) :
    handleAssistantBlock s (ContentBlock.toolUseBlock id name input) = s := by
  simp [handleAssistantBlock, h]

theorem assocMem_after_toolUse (s : ProcState) (id name input : String) :
    assocMem (handleEvent s
      (SDKEvent.assistantMsg [ContentBlock.toolUseBlock id name input])).tool_calls id = true := by
  show assocMem (updateMessage (handleAssistantBlock s
    (ContentBlock.toolUseBlock id name input))).tool_calls id = true
  rw [updateMessage_tool_calls]
  by_cases hm : assocMem s.tool_calls id = true
  · rw [handleAssistantBlock_of_mem s id name input hm]; exact hm
  · rw [Bool.not_eq_true] at hm
    simp only [assocMem] at hm
    simp [handleAssistantBlock, assocMem, hm, assocFind_assocSet_self]

/-- C5: delivering the same tool-invocation-request (same id) twice yields
the same buffer, registry and position map — hence the same rendered
document — as delivering it once; the second delivery creates no registry
entry and appends no element. -/
theorem duplicate_tool_request_idempotent (s : ProcState) (id name input : String) :
    (handleEvent (handleEvent s (SDKEvent.assistantMsg [ContentBlock.toolUseBlock id name input]))
        (SDKEvent.assistantMsg [ContentBlock.toolUseBlock id name input])).message_parts
      = (handleEvent s (SDKEvent.assistantMsg [ContentBlock.toolUseBlock id name input])).message_parts
    ∧ (handleEvent (handleEvent s (SDKEvent.assistantMsg [ContentBlock.toolUseBlock id name input]))
        (SDKEvent.assistantMsg [ContentBlock.toolUseBlock id name input])).tool_calls
      = (handleEvent s (SDKEvent.assistantMsg [ContentBlock.toolUseBlock id name input])).tool_calls
    ∧ (handleEvent (handleEvent s (SDKEvent.assistantMsg [ContentBlock.toolUseBlock id name input]))
        (SDKEvent.assistantMsg [ContentBlock.toolUseBlock id name input])).tool_call_positions
      = (handleEvent s (SDKEvent.assistantMsg [ContentBlock.toolUseBlock id name input])).tool_call_positions
    ∧ renderDoc (handleEvent (handleEvent s (SDKEvent.assistantMsg [ContentBlock.toolUseBlock id name input]))
        (SDKEvent.assistantMsg [ContentBlock.toolUseBlock id name input])).message_parts
      = renderDoc (handleEvent s (SDKEvent.assistantMsg [ContentBlock.toolUseBlock id name input])).message_parts := by
  have hmem := assocMem_after_toolUse s id name input
  have hstep : handleEvent (handleEvent s (SDKEvent.assistantMsg [ContentBlock.toolUseBlock id name input]))
      (SDKEvent.assistantMsg [ContentBlock.toolUseBlock id name input])
      = updateMessage (handleEvent s (SDKEvent.assistantMsg [ContentBlock.toolUseBlock id name input])) := by
    have h1 : handleEvent (handleEvent s (SDKEvent.assistantMsg [ContentBlock.toolUseBlock id name input]))
        (SDKEvent.assistantMsg [ContentBlock.toolUseBlock id name input])
        = updateMessage (handleAssistantBlock
            (handleEvent s (SDKEvent.assistantMsg [ContentBlock.toolUseBlock id name input]))
            (ContentBlock.toolUseBlock id name input)) := rfl
    rw [h1, handleAssistantBlock_of_mem _ id name input hmem]
  rw [hstep, updateMessage_message_parts, updateMessage_tool_calls,
    updateMessage_tool_call_positions]
  exact ⟨rfl, rfl, rfl, rfl⟩

/-- C6: a tool result whose id has no registry entry leaves the entire
processor state — registry, buffer, positions, chat document and sink
trace — unchanged; the source only logs a warning. -/
theorem unknown_result_id_leaves_state_unchanged (s : ProcState) (tid content : String)
    (h : assocMem s.tool_calls tid = false) :
    handleEvent s (SDKEvent.userMsg [ContentBlock.toolResultBlock tid content]) = s := by
  have hf : assocFind s.tool_calls tid = none := by
    cases hx : assocFind s.tool_calls tid with
    | none => rfl
    | some v => simp [assocMem, hx] at h
  simp [handleEvent, handleUserMessage, handleUserBlock, hf]

/-- Witness for C6 at the concrete input of spec Scenario C. -/
theorem unknown_result_id_leaves_state_unchanged_witness :
    assocMem initState.tool_calls "unknown" = false ∧
    handleEvent initState (SDKEvent.userMsg [ContentBlock.toolResultBlock "unknown" "x"]) = initState :=
  ⟨by decide, unknown_result_id_leaves_state_unchanged initState "unknown" "x" (by decide)⟩

theorem runPrompts_connected (n : Nat) (c : Nat) (s : PersonaState)
    (h : s.sdk_client = some c) : runPrompts s n = (s, List.replicate n c) := by
  induction n with
  | zero => simp [runPrompts]
  | succ m ih =>
    simp [runPrompts, getOrCreateClient, h, ih, List.replicate]

/-- C8: across any number of prompts on one conversation, the SDK client
is constructed exactly once — on the first prompt — and every prompt uses
that same client object (client 0); no prompt constructs a client while
one exists. -/
theorem client_created_once_and_reused (n : Nat) :
    (runPrompts initPersona n).2 = List.replicate n 0
    ∧ (runPrompts initPersona n).1.clientsCreated = (if n = 0 then 0 else 1)
    ∧ (runPrompts initPersona n).1.sdk_client = (if n = 0 then none else some 0) := by
  cases n with
  | zero => simp [runPrompts, initPersona]
  | succ m =>
    have h := runPrompts_connected m 0 { sdk_client := some 0, clientsCreated := 1 } rfl
    simp [runPrompts, getOrCreateClient, initPersona, h, List.replicate]

/-- C9: any message whose string representation contains a skip-list
pattern (the list includes the bare tool names and the word "tools"), or
is longer than 500 characters, or starts with a brace or bracket after
stripping, contributes the empty string to the streamed reply — whatever
shape the message object has. -/
theorem skip_gate_yields_empty (msg : PyMsg)
    (h : matchesAnySkip msg.str_repr = true
      ∨ 500 < msg.str_repr.length
      ∨ (pyStrip msg.str_repr).startsWith "\x7b" = true
      ∨ (pyStrip msg.str_repr).startsWith "[" = true) :
    parseClaudeCodeMessage msg = "" := by
  unfold parseClaudeCodeMessage
  by_cases h1 : matchesAnySkip msg.str_repr = true
  · simp [h1]
  · rw [Bool.not_eq_true] at h1
    by_cases h2 : 500 < msg.str_repr.length
    · simp [h1, h2]
    · by_cases h3 : (pyStrip msg.str_repr).startsWith "\x7b" = true
      · simp [h1, h2, h3]
      · rw [Bool.not_eq_true] at h3
        by_cases h4 : (pyStrip msg.str_repr).startsWith "[" = true
        · simp [h1, h2, h3, h4]
        · rw [Bool.not_eq_true] at h4
          rcases h with h | h | h | h
          · rw [h1] at h; exact absurd h (by simp)
          · exact absurd h h2
          · rw [h3] at h; exact absurd h (by simp)
          · rw [h4] at h; exact absurd h (by simp)

/-- Witness for C9: ordinary assistant prose containing the bare word
"Read" is dropped from the reply. -/
theorem skip_gate_yields_empty_witness :
    matchesAnySkip "Please Read the attached file and summarize it" = true
    ∧ parseClaudeCodeMessage
        { str_repr := "Please Read the attached file and summarize it"
          isStr := true
          result := none
          content := ContentVal.noContent
          textAttr := none
          hasDataDict := false } = "" :=
  ⟨by decide,
   skip_gate_yields_empty
     { str_repr := "Please Read the attached file and summarize it"
       isStr := true
       result := none
       content := ContentVal.noContent
       textAttr := none
       hasDataDict := false }
     (Or.inl (by decide))⟩

/-- C4 counterexample: after a result is attached to invocation "t1", a
further tool-invocation-result event for "t1" with different content
overwrites the record and changes the rendered document, so the result
field does not transition at most once. -/
theorem result_redelivery_overwrites_record :
    assocFind (runEvents (runEvents initState
        [SDKEvent.assistantMsg [ContentBlock.toolUseBlock "t1" "Read" "args"],
         SDKEvent.userMsg [ContentBlock.toolResultBlock "t1" "a"]])
        [SDKEvent.userMsg [ContentBlock.toolResultBlock "t1" "b"]]).tool_calls "t1"
      ≠ assocFind (runEvents initState
        [SDKEvent.assistantMsg [ContentBlock.toolUseBlock "t1" "Read" "args"],
         SDKEvent.userMsg [ContentBlock.toolResultBlock "t1" "a"]]).tool_calls "t1"
    ∧ renderDoc (runEvents (runEvents initState
        [SDKEvent.assistantMsg [ContentBlock.toolUseBlock "t1" "Read" "args"],
         SDKEvent.userMsg [ContentBlock.toolResultBlock "t1" "a"]])
        [SDKEvent.userMsg [ContentBlock.toolResultBlock "t1" "b"]]).message_parts
      ≠ renderDoc (runEvents initState
        [SDKEvent.assistantMsg [ContentBlock.toolUseBlock "t1" "Read" "args"],
         SDKEvent.userMsg [ContentBlock.toolResultBlock "t1" "a"]]).message_parts := by
  constructor
  · decide
  · decide

/-- C4 amended: re-delivering a tool-invocation-result event with the SAME
id and content is a no-op on the registry and the buffer (the overwrite
rewrites the identical value); only a result with different content can
change the record. -/
theorem same_result_redelivery_noop (s : ProcState) (tid content : String) :
    (handleEvent (handleEvent s (SDKEvent.userMsg [ContentBlock.toolResultBlock tid content]))
        (SDKEvent.userMsg [ContentBlock.toolResultBlock tid content])).tool_calls
      = (handleEvent s (SDKEvent.userMsg [ContentBlock.toolResultBlock tid content])).tool_calls
    ∧ (handleEvent (handleEvent s (SDKEvent.userMsg [ContentBlock.toolResultBlock tid content]))
        (SDKEvent.userMsg [ContentBlock.toolResultBlock tid content])).message_parts
      = (handleEvent s (SDKEvent.userMsg [ContentBlock.toolResultBlock tid content])).message_parts
    ∧ (handleEvent (handleEvent s (SDKEvent.userMsg [ContentBlock.toolResultBlock tid content]))
        (SDKEvent.userMsg [ContentBlock.toolResultBlock tid content])).tool_call_positions
      = (handleEvent s (SDKEvent.userMsg [ContentBlock.toolResultBlock tid content])).tool_call_positions := by
  have hev : ∀ t : ProcState,
      handleEvent t (SDKEvent.userMsg [ContentBlock.toolResultBlock tid content])
        = handleUserBlock t (ContentBlock.toolResultBlock tid content) := fun _ => rfl
  simp only [hev]
  cases hf : assocFind s.tool_calls tid with
  | none =>
    have h1 : handleUserBlock s (ContentBlock.toolResultBlock tid content) = s := by
      simp [handleUserBlock, hf]
    simp [h1]
  | some info =>
    simp only [handleUserBlock, hf]
    cases hp : assocFind s.tool_call_positions tid with
    | none =>
      simp only [hp, updateMessage_tool_calls, updateMessage_tool_call_positions,
        updateMessage_message_parts, assocFind_assocSet_self, assocSet_assocSet]
      exact ⟨trivial, trivial, trivial⟩
    | some p =>
      simp only [hp, updateMessage_tool_calls, updateMessage_tool_call_positions,
        updateMessage_message_parts, assocFind_assocSet_self, assocSet_assocSet,
        List.set_set]
      exact ⟨trivial, trivial, trivial⟩

/-! ## Stream-failure and sink-trace lemmas (C2, C3) -/

/-- Does an event model an exception raised while iterating the stream? -/
def isStreamFailed : SDKEvent → Bool
  | .streamFailed _ => true
  | _ => false

/-- No event of the list aborts the turn. -/
def noFailure (evs : List SDKEvent) : Bool :=
  evs.all fun e => !(isStreamFailed e)

theorem runEvents_cons (s : ProcState) (e : SDKEvent) (l : List SDKEvent)
    (he : isStreamFailed e = false) :
    runEvents s (e :: l) = runEvents (handleEvent s e) l := by
  cases e with
  | streamFailed err => simp [isStreamFailed] at he
  | assistantMsg bs => rfl
  | userMsg bs => rfl
  | resultMsg => rfl
  | systemMsg => rfl
  | preHook n i id => rfl
  | postHook n r id => rfl

theorem runEvents_append (s : ProcState) (evs evs' : List SDKEvent)
    (h : noFailure evs = true) :
    runEvents s (evs ++ evs') = runEvents (runEvents s evs) evs' := by
  induction evs generalizing s with
  | nil => rfl
  | cons e rest ih =>
    rw [noFailure, List.all_cons, Bool.and_eq_true] at h
    have he : isStreamFailed e = false := by
      cases hx : isStreamFailed e
      · rfl
      · rw [hx] at h; simp at h
    rw [List.cons_append, runEvents_cons s e (rest ++ evs') he,
      runEvents_cons s e rest he]
    exact ih (handleEvent s e) h.2

/-- C2 counterexample: after `TextDelta("partial")` then
`StreamFailed("network reset")`, the turn's document (message 0) holds
exactly `"partial"` — it contains no failure notice — and the synthetic
notice is a separate, newly created chat message (message 1). -/
theorem stream_failure_notice_separate_message :
    (runEvents initState [SDKEvent.assistantMsg [ContentBlock.textBlock "partial"],
        SDKEvent.streamFailed "network reset"]).message_id = some 0
    ∧ lookupBody (runEvents initState [SDKEvent.assistantMsg [ContentBlock.textBlock "partial"],
        SDKEvent.streamFailed "network reset"]).ychat 0 = some "partial"
    ∧ strContains "partial" "An error occurred" = false
    ∧ (runEvents initState [SDKEvent.assistantMsg [ContentBlock.textBlock "partial"],
        SDKEvent.streamFailed "network reset"]).ychat.messages
      = [(0, "partial"), (1, "An error occurred: network reset")] := by
  refine ⟨by decide, by decide, by decide, by decide⟩

/-- C2 amended: a stream failure after any failure-free prefix leaves the
turn's buffer and document untouched and posts the synthetic notice
`"An error occurred: …"` as a separate new chat message; the streaming
path keeps no turn history. -/
theorem stream_failure_appends_separate_notice (evs : List SDKEvent) (err : String)
    (h : noFailure evs = true) :
    (runEvents initState (evs ++ [SDKEvent.streamFailed err])).message_parts
      = (runEvents initState evs).message_parts
    ∧ (runEvents initState (evs ++ [SDKEvent.streamFailed err])).message_id
      = (runEvents initState evs).message_id
    ∧ (runEvents initState (evs ++ [SDKEvent.streamFailed err])).ychat.messages
      = (runEvents initState evs).ychat.messages
        ++ [((runEvents initState evs).ychat.nextId, "An error occurred: " ++ err)] := by
  rw [runEvents_append initState evs [SDKEvent.streamFailed err] h]
  exact ⟨rfl, rfl, rfl⟩

/-- Witness for C2 at the input of spec Scenario D. -/
theorem stream_failure_appends_separate_notice_witness :
    noFailure [SDKEvent.assistantMsg [ContentBlock.textBlock "partial"]] = true
    ∧ ((runEvents initState ([SDKEvent.assistantMsg [ContentBlock.textBlock "partial"]]
          ++ [SDKEvent.streamFailed "network reset"])).message_parts
        = (runEvents initState [SDKEvent.assistantMsg [ContentBlock.textBlock "partial"]]).message_parts
      ∧ (runEvents initState ([SDKEvent.assistantMsg [ContentBlock.textBlock "partial"]]
          ++ [SDKEvent.streamFailed "network reset"])).message_id
        = (runEvents initState [SDKEvent.assistantMsg [ContentBlock.textBlock "partial"]]).message_id
      ∧ (runEvents initState ([SDKEvent.assistantMsg [ContentBlock.textBlock "partial"]]
          ++ [SDKEvent.streamFailed "network reset"])).ychat.messages
        = (runEvents initState [SDKEvent.assistantMsg [ContentBlock.textBlock "partial"]]).ychat.messages
          ++ [((runEvents initState [SDKEvent.assistantMsg [ContentBlock.textBlock "partial"]]).ychat.nextId,
               "An error occurred: " ++ "network reset")]) :=
  ⟨by decide,
   stream_failure_appends_separate_notice [SDKEvent.assistantMsg [ContentBlock.textBlock "partial"]]
     "network reset" (by decide)⟩

/-- Is this sink call a create (`ychat.add_message`)? -/
def isCreateCall : SinkCall → Bool
  | .create _ => true
  | .replace _ _ => false

/-- Is this sink call a replace of the message with the given id? -/
def isReplaceOf (id : Nat) : SinkCall → Bool
  | .replace i _ => i == id
  | .create _ => false

/-- The per-turn sink discipline: no push before the message exists; once
it exists, the trace is one create followed by replaces of that id. -/
def TraceOK (s : ProcState) : Prop :=
  match s.message_id with
  | none => s.sinkTrace = []
  | some id => ∃ b rest, s.sinkTrace = SinkCall.create b :: rest
      ∧ rest.all (isReplaceOf id) = true

theorem traceOK_congr (s t : ProcState) (hid : t.message_id = s.message_id)
    (htr : t.sinkTrace = s.sinkTrace) (h : TraceOK s) : TraceOK t := by
  unfold TraceOK at h ⊢
  rw [hid, htr]
  exact h

theorem traceOK_updateMessage (s : ProcState) (h : TraceOK s) :
    TraceOK (updateMessage s) := by
  unfold TraceOK at h ⊢
  cases hm : s.message_id with
  | none =>
    rw [hm] at h
    simp only [updateMessage, hm]
    exact ⟨renderDoc s.message_parts, [], by rw [h]; rfl, rfl⟩
  | some id =>
    rw [hm] at h
    obtain ⟨b, rest, h1, h2⟩ := h
    simp only [updateMessage, hm]
    refine ⟨b, rest ++ [SinkCall.replace id (renderDoc s.message_parts)], ?_, ?_⟩
    · rw [h1]; rfl
    · rw [List.all_append, h2]
      simp [isReplaceOf]

theorem handleAssistantBlock_sink_fields (s : ProcState) (b : ContentBlock) :
    (handleAssistantBlock s b).message_id = s.message_id
    ∧ (handleAssistantBlock s b).sinkTrace = s.sinkTrace := by
  cases b with
  | textBlock t => exact ⟨rfl, rfl⟩
  | toolUseBlock id name input =>
    by_cases hm : assocMem s.tool_calls id = true
    · simp [handleAssistantBlock, hm]
    · rw [Bool.not_eq_true] at hm
      simp [handleAssistantBlock, hm]
  | toolResultBlock tid c => exact ⟨rfl, rfl⟩
  | otherBlock => exact ⟨rfl, rfl⟩

theorem traceOK_foldl_assistant (bs : List ContentBlock) (s : ProcState)
    (h : TraceOK s) : TraceOK (bs.foldl handleAssistantBlock s)
      ∧ (bs.foldl handleAssistantBlock s).message_id = s.message_id
      ∧ (bs.foldl handleAssistantBlock s).sinkTrace = s.sinkTrace := by
  induction bs generalizing s with
  | nil => exact ⟨h, rfl, rfl⟩
  | cons b rest ih =>
    have hb := handleAssistantBlock_sink_fields s b
    have h' : TraceOK (handleAssistantBlock s b) :=
      traceOK_congr s _ hb.1 hb.2 h
    obtain ⟨g1, g2, g3⟩ := ih (handleAssistantBlock s b) h'
    exact ⟨g1, by rw [List.foldl_cons, g2, hb.1], by rw [List.foldl_cons, g3, hb.2]⟩

theorem traceOK_handleUserBlock (s : ProcState) (b : ContentBlock)
    (h : TraceOK s) : TraceOK (handleUserBlock s b) := by
  cases b with
  | textBlock t => exact h
  | toolUseBlock id name input => exact h
  | otherBlock => exact h
  | toolResultBlock tid c =>
    cases hf : assocFind s.tool_calls tid with
    | none => simp only [handleUserBlock, hf]; exact h
    | some info =>
      simp only [handleUserBlock, hf]
      cases hp : assocFind s.tool_call_positions tid with
      | none =>
        simp only [hp]
        exact traceOK_updateMessage _ (traceOK_congr s _ rfl rfl h)
      | some p =>
        simp only [hp]
        exact traceOK_updateMessage _ (traceOK_congr s _ rfl rfl h)

theorem traceOK_handleEvent (s : ProcState) (e : SDKEvent) (h : TraceOK s) :
    TraceOK (handleEvent s e) := by
  cases e with
  | assistantMsg bs =>
    exact traceOK_updateMessage _ (traceOK_foldl_assistant bs s h).1
  | userMsg bs =>
    show TraceOK (bs.foldl handleUserBlock s)
    induction bs generalizing s with
    | nil => exact h
    | cons b rest ih => exact ih (handleUserBlock s b) (traceOK_handleUserBlock s b h)
  | resultMsg => exact h
  | systemMsg => exact h
  | streamFailed err => exact h
  | preHook n i id => exact traceOK_updateMessage _ (traceOK_congr s _ rfl rfl h)
  | postHook n r id =>
    cases hf : assocFind s.tool_calls id with
    | none => simp only [handleEvent, postToolHook, hf]; exact h
    | some info =>
      simp only [handleEvent, postToolHook, hf]
      exact traceOK_updateMessage _ (traceOK_congr s _ rfl rfl h)

theorem traceOK_runEvents (evs : List SDKEvent) (s : ProcState)
    (hf : noFailure evs = true) (h : TraceOK s) : TraceOK (runEvents s evs) := by
  induction evs generalizing s with
  | nil => exact h
  | cons e rest ih =>
    rw [noFailure, List.all_cons, Bool.and_eq_true] at hf
    have he : isStreamFailed e = false := by
      cases hx : isStreamFailed e
      · rfl
      · rw [hx] at hf; simp at hf
    rw [runEvents_cons s e rest he]
    exact ih (handleEvent s e) hf.2 (traceOK_handleEvent s e h)

theorem filter_create_of_all_replace (id : Nat) (rest : List SinkCall)
    (h : rest.all (isReplaceOf id) = true) : rest.filter isCreateCall = [] := by
  induction rest with
  | nil => rfl
  | cons c t ih =>
    rw [List.all_cons, Bool.and_eq_true] at h
    cases c with
    | create b => simp [isReplaceOf] at h
    | replace i b => simp [List.filter, isCreateCall, ih h.2]

/-- C3 counterexample: a turn with no renderable events — here a bare
`ResultMessage` before completion — performs no sink call at all: no
create, and no chat message exists afterwards. -/
theorem empty_turn_performs_no_create :
    (runEvents initState [SDKEvent.resultMsg]).sinkTrace = []
    ∧ (runEvents initState [SDKEvent.resultMsg]).ychat.messages = [] := by
  exact ⟨by decide, by decide⟩

/-- C3 amended: in any failure-free turn the sink sees at most one create;
no push happens before the message exists, and once created every
subsequent push is a replace of that same message.  (A turn that never
renders performs zero sink calls.) -/
theorem sink_at_most_one_create_then_replaces (evs : List SDKEvent)
    (h : noFailure evs = true) :
    ((runEvents initState evs).sinkTrace.filter isCreateCall).length ≤ 1
    ∧ ((runEvents initState evs).message_id = none → (runEvents initState evs).sinkTrace = [])
    ∧ (∀ id, (runEvents initState evs).message_id = some id →
        ∃ b rest, (runEvents initState evs).sinkTrace = SinkCall.create b :: rest
          ∧ rest.all (isReplaceOf id) = true) := by
  have hin : TraceOK initState := by unfold TraceOK; rfl
  have hT := traceOK_runEvents evs initState h hin
  unfold TraceOK at hT
  refine ⟨?_, ?_, ?_⟩
  · cases hm : (runEvents initState evs).message_id with
    | none => rw [hm] at hT; rw [hT]; simp
    | some id =>
      rw [hm] at hT
      obtain ⟨b, rest, h1, h2⟩ := hT
      rw [h1, List.filter, filter_create_of_all_replace id rest h2]
      simp [isCreateCall]
  · intro hm; rw [hm] at hT; exact hT
  · intro id hm; rw [hm] at hT; exact hT

/-- Witness for C3 at the input of spec Scenario A. -/
theorem sink_at_most_one_create_then_replaces_witness :
    noFailure [SDKEvent.assistantMsg [ContentBlock.textBlock "Hello "],
        SDKEvent.assistantMsg [ContentBlock.textBlock "world"], SDKEvent.resultMsg] = true
    ∧ (((runEvents initState [SDKEvent.assistantMsg [ContentBlock.textBlock "Hello "],
          SDKEvent.assistantMsg [ContentBlock.textBlock "world"], SDKEvent.resultMsg]).sinkTrace.filter
            isCreateCall).length ≤ 1
      ∧ ((runEvents initState [SDKEvent.assistantMsg [ContentBlock.textBlock "Hello "],
          SDKEvent.assistantMsg [ContentBlock.textBlock "world"], SDKEvent.resultMsg]).message_id = none →
          (runEvents initState [SDKEvent.assistantMsg [ContentBlock.textBlock "Hello "],
            SDKEvent.assistantMsg [ContentBlock.textBlock "world"], SDKEvent.resultMsg]).sinkTrace = [])
      ∧ (∀ id, (runEvents initState [SDKEvent.assistantMsg [ContentBlock.textBlock "Hello "],
            SDKEvent.assistantMsg [ContentBlock.textBlock "world"], SDKEvent.resultMsg]).message_id = some id →
          ∃ b rest, (runEvents initState [SDKEvent.assistantMsg [ContentBlock.textBlock "Hello "],
              SDKEvent.assistantMsg [ContentBlock.textBlock "world"], SDKEvent.resultMsg]).sinkTrace
            = SinkCall.create b :: rest ∧ rest.all (isReplaceOf id) = true)) :=
  ⟨by decide,
   sink_at_most_one_create_then_replaces [SDKEvent.assistantMsg [ContentBlock.textBlock "Hello "],
     SDKEvent.assistantMsg [ContentBlock.textBlock "world"], SDKEvent.resultMsg] (by decide)⟩

/-! ## Conversation history bounds (C7) -/

theorem pyTake200_length_le (s : String) : (pyTake200 s).length ≤ 200 := by
  show (String.mk (s.data.take 200)).length ≤ 200
  have h : (String.mk (s.data.take 200)).length = (s.data.take 200).length := rfl
  rw [h]
  exact le_trans (List.length_take_le 200 s.data) (le_refl 200)

/-- C7: the history buffer never exceeds 5 entries; appending to a full
buffer of 5 drops the oldest entry (the result is the tail plus the new
entry); the continuity window holds at most the 3 most recent entries and
every formatted preview line is at most 224 characters long. -/
theorem history_bounds (hist : List ConvEntry) (m : List String) (r : String) (t : Nat) :
    (updateConversationState hist m r t).length ≤ 5
    ∧ (hist.length = 5 →
        updateConversationState hist m r t
          = hist.drop 1 ++ [{ messages := m, response := r, timestamp := t }])
    ∧ (lastThree hist).length ≤ 3
    ∧ (∀ pstr ∈ contextParts (lastThree hist), pstr.length ≤ 224) := by
  refine ⟨?_, ?_, ?_, ?_⟩
  · simp only [updateConversationState]
    by_cases h : (hist ++ [({ messages := m, response := r, timestamp := t } : ConvEntry)]).length > 5
    · rw [if_pos h, List.length_drop]
      omega
    · rw [if_neg h]
      omega
  · intro h5
    simp only [updateConversationState]
    have hlen : (hist ++ [({ messages := m, response := r, timestamp := t } : ConvEntry)]).length = 6 := by
      rw [List.length_append, h5]; rfl
    simp only [hlen]
    rw [if_pos (by omega : (6:Nat) > 5)]
    have h1 : (6 : Nat) - 5 = 1 := rfl
    rw [h1]
    exact List.drop_append_of_le_length (by omega)
  · unfold lastThree
    rw [List.length_drop]
    omega
  · intro pstr hp
    unfold contextParts at hp
    rw [List.mem_map] at hp
    obtain ⟨⟨i, e⟩, hmem, heq⟩ := hp
    have hi : i < (lastThree hist).length := by
      have := List.mem_enum_iff_getElem?.mp hmem
      exact (List.getElem?_eq_some.mp this).1
    have hi3 : i < 3 := by
      have : (lastThree hist).length ≤ 3 := by
        unfold lastThree; rw [List.length_drop]; omega
      omega
    rw [← heq]
    simp only [String.length_append]
    have hd : (toString (i + 1)).length = 1 := by
      interval_cases i <;> decide
    rw [hd]
    have := pyTake200_length_le e.response
    have h18 : ("Previous exchange ").length = 18 := by decide
    have h2 : (": ").length = 2 := by decide
    have h3 : ("...").length = 3 := by decide
    omega

/-- Witness for C7: a full buffer of five entries receives a sixth. -/
theorem history_bounds_witness :
    ([{ messages := [], response := "r1", timestamp := 1 },
      { messages := [], response := "r2", timestamp := 2 },
      { messages := [], response := "r3", timestamp := 3 },
      { messages := [], response := "r4", timestamp := 4 },
      { messages := [], response := "r5", timestamp := 5 }] : List ConvEntry).length = 5
    ∧ updateConversationState
        [{ messages := [], response := "r1", timestamp := 1 },
         { messages := [], response := "r2", timestamp := 2 },
         { messages := [], response := "r3", timestamp := 3 },
         { messages := [], response := "r4", timestamp := 4 },
         { messages := [], response := "r5", timestamp := 5 }] [] "r6" 6
      = ([{ messages := [], response := "r1", timestamp := 1 },
          { messages := [], response := "r2", timestamp := 2 },
          { messages := [], response := "r3", timestamp := 3 },
          { messages := [], response := "r4", timestamp := 4 },
          { messages := [], response := "r5", timestamp := 5 }] : List ConvEntry).drop 1
        ++ [{ messages := [], response := "r6", timestamp := 6 }] :=
  ⟨by decide,
   (history_bounds
     [{ messages := [], response := "r1", timestamp := 1 },
      { messages := [], response := "r2", timestamp := 2 },
      { messages := [], response := "r3", timestamp := 3 },
      { messages := [], response := "r4", timestamp := 4 },
      { messages := [], response := "r5", timestamp := 5 }] [] "r6" 6).2.1 (by decide)⟩

/-! ## Ordering of buffer elements (C1)

The observable identity of a buffer element: which text fragment, or which
invocation id, it renders.  The ordering claim says the sequence of these
identities equals the first-sight order of the originating events. -/

/-- Observable identity of one buffer element. -/
inductive ElemTag where
  | textE (s : String)
  | toolE (id : String)
deriving DecidableEq, Repr

/-- The identity of a stored part. -/
def partTag : Part → ElemTag
  | .text s => .textE s
  | .toolUI info => .toolE info.tool_id

/-- Specification-side observer: folding one assistant content block over
(ids seen so far, element order so far).  A text block is always a new
element; a tool-use block is a new element exactly on first sight. -/
def obsBlock : List String × List ElemTag → ContentBlock → List String × List ElemTag
  | acc, .textBlock t => (acc.1, acc.2 ++ [ElemTag.textE t])
  | acc, .toolUseBlock id _ _ =>
    if id ∈ acc.1 then acc else (acc.1 ++ [id], acc.2 ++ [ElemTag.toolE id])
  | acc, _ => acc

/-- Specification-side observer for one protocol message event; only
assistant messages introduce elements. -/
def obsEvent : List String × List ElemTag → SDKEvent → List String × List ElemTag
  | acc, .assistantMsg bs => bs.foldl obsBlock acc
  | acc, _ => acc

/-- The first-sight order of text and tool elements over a whole turn. -/
def firstObserved (evs : List SDKEvent) : List ElemTag :=
  (evs.foldl obsEvent ([], [])).2

/-- Protocol message events (the four SDK message classes, no hook
callbacks, no stream failure). -/
def isMsgEvent : SDKEvent → Bool
  | .assistantMsg _ => true
  | .userMsg _ => true
  | .resultMsg => true
  | .systemMsg => true
  | .preHook _ _ _ => false
  | .postHook _ _ _ => false
  | .streamFailed _ => false

/-- Registry records carry their own key as `tool_id`. -/
def KeysInv (s : ProcState) : Prop :=
  ∀ kv ∈ s.tool_calls, (kv : String × ToolCallInfo).2.tool_id = kv.1

/-- Every recorded position points at the tool-UI part of its own id. -/
def PosInv (s : ProcState) : Prop :=
  ∀ id p, assocFind s.tool_call_positions id = some p →
    ∃ info, s.message_parts[p]? = some (Part.toolUI info) ∧ info.tool_id = id

theorem keysInv_congr (s t : ProcState) (h : t.tool_calls = s.tool_calls)
    (hs : KeysInv s) : KeysInv t := by
  intro kv hkv
  exact hs kv (h ▸ hkv)

theorem posInv_congr (s t : ProcState)
    (hpos : t.tool_call_positions = s.tool_call_positions)
    (hparts : t.message_parts = s.message_parts) (hs : PosInv s) : PosInv t := by
  intro id p hp
  rw [hpos] at hp
  rw [hparts]
  exact hs id p hp

theorem assistantBlock_sim (s : ProcState) (b : ContentBlock)
    (hK : KeysInv s) (hP : PosInv s) :
    (assocKeys (handleAssistantBlock s b).tool_calls,
        (handleAssistantBlock s b).message_parts.map partTag)
      = obsBlock (assocKeys s.tool_calls, s.message_parts.map partTag) b
    ∧ KeysInv (handleAssistantBlock s b) ∧ PosInv (handleAssistantBlock s b) := by
  cases b with
  | textBlock t =>
    refine ⟨?_, hK, ?_⟩
    · simp [handleAssistantBlock, obsBlock, partTag]
    · intro id p hp
      obtain ⟨info, h1, h2⟩ := hP id p hp
      have hlt : p < s.message_parts.length := (List.getElem?_eq_some.mp h1).1
      refine ⟨info, ?_, h2⟩
      show (s.message_parts ++ [Part.text t])[p]? = some (Part.toolUI info)
      rw [List.getElem?_append_left hlt]
      exact h1
  | toolResultBlock tid c => exact ⟨rfl, hK, hP⟩
  | otherBlock => exact ⟨rfl, hK, hP⟩
  | toolUseBlock id name input =>
    by_cases hm : assocMem s.tool_calls id = true
    · have hmem : id ∈ assocKeys s.tool_calls := (assocMem_iff_mem_keys _ _).mp hm
      have hstep : handleAssistantBlock s (ContentBlock.toolUseBlock id name input) = s := by
        simp [handleAssistantBlock, hm]
      rw [hstep]
      refine ⟨?_, hK, hP⟩
      simp [obsBlock, hmem]
    · rw [Bool.not_eq_true] at hm
      have hnot : ¬ id ∈ assocKeys s.tool_calls := by
        intro hmem
        rw [(assocMem_iff_mem_keys _ _).mpr hmem] at hm
        cases hm
      have hstep : handleAssistantBlock s (ContentBlock.toolUseBlock id name input)
          = { s with
              tool_calls := assocSet s.tool_calls id
                { tool_id := id, index := s.tool_calls.length, type := "function",
                  function_name := name, function_args := input, output := none }
              message_parts := s.message_parts ++ [Part.toolUI
                { tool_id := id, index := s.tool_calls.length, type := "function",
                  function_name := name, function_args := input, output := none }]
              tool_call_positions := assocSet s.tool_call_positions id
                s.message_parts.length } := by
        simp [handleAssistantBlock, hm]
      rw [hstep]
      refine ⟨?_, ?_, ?_⟩
      · simp only [obsBlock, if_neg hnot]
        rw [assocSet_of_not_mem s.tool_calls id _ hm]
        unfold assocKeys
        rw [List.map_append, List.map_append]
        rfl
      · intro kv hkv
        rcases mem_assocSet _ _ _ _ hkv with h' | h'
        · exact hK kv h'
        · rw [h']
      · intro id₀ p₀ hp₀
        by_cases hid : id₀ = id
        · rw [hid] at hp₀ ⊢
          rw [assocFind_assocSet_self] at hp₀
          have hp₀' : p₀ = s.message_parts.length := by
            injection hp₀ with h'; exact h'.symm
          subst hp₀'
          exact ⟨{ tool_id := id, index := s.tool_calls.length, type := "function",
                   function_name := name, function_args := input, output := none },
                 List.getElem?_concat_length _ _, rfl⟩
        · rw [assocFind_assocSet_ne _ _ _ _ hid] at hp₀
          obtain ⟨info₀, h1, h2⟩ := hP id₀ p₀ hp₀
          have hlt : p₀ < s.message_parts.length := (List.getElem?_eq_some.mp h1).1
          refine ⟨info₀, ?_, h2⟩
          show (s.message_parts ++ [Part.toolUI _])[p₀]? = some (Part.toolUI info₀)
          rw [List.getElem?_append_left hlt]
          exact h1

theorem foldl_assistant_sim (bs : List ContentBlock) (s : ProcState)
    (hK : KeysInv s) (hP : PosInv s) :
    (assocKeys (bs.foldl handleAssistantBlock s).tool_calls,
        (bs.foldl handleAssistantBlock s).message_parts.map partTag)
      = bs.foldl obsBlock (assocKeys s.tool_calls, s.message_parts.map partTag)
    ∧ KeysInv (bs.foldl handleAssistantBlock s)
    ∧ PosInv (bs.foldl handleAssistantBlock s) := by
  induction bs generalizing s with
  | nil => exact ⟨rfl, hK, hP⟩
  | cons b rest ih =>
    obtain ⟨h1, h2, h3⟩ := assistantBlock_sim s b hK hP
    obtain ⟨g1, g2, g3⟩ := ih (handleAssistantBlock s b) h2 h3
    refine ⟨?_, g2, g3⟩
    rw [List.foldl_cons, List.foldl_cons, ← h1]
    exact g1

/-- The record update `_handle_user_message` (and `post_tool_hook`)
performs on a registry record when its result arrives. -/
def withOutput (info : ToolCallInfo) (tid c : String) : ToolCallInfo :=
  { info with
    output := some
      { tool_call_id := tid
        role := "tool"
        name := info.function_name
        content := c } }

theorem withOutput_tool_id (info : ToolCallInfo) (tid c : String) :
    (withOutput info tid c).tool_id = info.tool_id := rfl

/-- The record update `post_tool_hook` performs: the output's name comes
from the hook's `tool_name` argument, not from the stored record. -/
def withHookOutput (info : ToolCallInfo) (tid toolName resp : String) : ToolCallInfo :=
  { info with
    output := some
      { tool_call_id := tid
        role := "tool"
        name := toolName
        content := resp } }

theorem withHookOutput_tool_id (info : ToolCallInfo) (tid toolName resp : String) :
    (withHookOutput info tid toolName resp).tool_id = info.tool_id := rfl

theorem userBlock_sim (s : ProcState) (b : ContentBlock)
    (hK : KeysInv s) (hP : PosInv s) :
    assocKeys (handleUserBlock s b).tool_calls = assocKeys s.tool_calls
    ∧ (handleUserBlock s b).message_parts.map partTag = s.message_parts.map partTag
    ∧ (handleUserBlock s b).tool_call_positions = s.tool_call_positions
    ∧ KeysInv (handleUserBlock s b) ∧ PosInv (handleUserBlock s b) := by
  cases b with
  | textBlock t => exact ⟨rfl, rfl, rfl, hK, hP⟩
  | toolUseBlock id n i => exact ⟨rfl, rfl, rfl, hK, hP⟩
  | otherBlock => exact ⟨rfl, rfl, rfl, hK, hP⟩
  | toolResultBlock tid c =>
    cases hf : assocFind s.tool_calls tid with
    | none =>
      have hstep : handleUserBlock s (ContentBlock.toolResultBlock tid c) = s := by
        simp only [handleUserBlock, hf]
      rw [hstep]
      exact ⟨rfl, rfl, rfl, hK, hP⟩
    | some info =>
      have hmem : assocMem s.tool_calls tid = true := by
        simp [assocMem, hf]
      have htid : info.tool_id = tid := hK (tid, info) (assocFind_mem _ _ _ hf)
      have hKset : KeysInv { s with tool_calls := assocSet s.tool_calls tid (withOutput info tid c) } := by
        intro kv hkv
        rcases mem_assocSet _ _ _ _ hkv with h' | h'
        · exact hK kv h'
        · rw [h']
          rw [withOutput_tool_id]
          exact htid
      cases hp : assocFind s.tool_call_positions tid with
      | none =>
        have hstep : handleUserBlock s (ContentBlock.toolResultBlock tid c)
            = updateMessage
                { s with tool_calls := assocSet s.tool_calls tid (withOutput info tid c) } := by
          simp only [handleUserBlock, hf, hp, withOutput]
        rw [hstep]
        rw [updateMessage_tool_calls, updateMessage_message_parts,
          updateMessage_tool_call_positions]
        refine ⟨?_, rfl, rfl, ?_, ?_⟩
        · exact assocKeys_assocSet_of_mem _ _ _ hmem
        · exact keysInv_congr _ _ (updateMessage_tool_calls _) hKset
        · exact posInv_congr s _ (updateMessage_tool_call_positions _)
            (updateMessage_message_parts _) hP
      | some p =>
        obtain ⟨info₀, hg1, hg2⟩ := hP tid p hp
        have hlt : p < s.message_parts.length := (List.getElem?_eq_some.mp hg1).1
        have hstep : handleUserBlock s (ContentBlock.toolResultBlock tid c)
            = updateMessage
                { s with
                  tool_calls := assocSet s.tool_calls tid (withOutput info tid c)
                  message_parts := s.message_parts.set p (Part.toolUI (withOutput info tid c)) } := by
          simp only [handleUserBlock, hf, hp, withOutput]
        rw [hstep]
        rw [updateMessage_tool_calls, updateMessage_message_parts,
          updateMessage_tool_call_positions]
        refine ⟨?_, ?_, rfl, ?_, ?_⟩
        · exact assocKeys_assocSet_of_mem _ _ _ hmem
        · show (s.message_parts.set p (Part.toolUI (withOutput info tid c))).map partTag
            = s.message_parts.map partTag
          rw [List.map_set]
          have htag : partTag (Part.toolUI (withOutput info tid c)) = ElemTag.toolE tid := by
            simp [partTag, withOutput_tool_id, htid]
          rw [htag]
          apply set_getElem?_self
          rw [List.getElem?_map, hg1]
          simp [partTag, hg2]
        · refine keysInv_congr _ _ (updateMessage_tool_calls _) ?_
          intro kv hkv
          rcases mem_assocSet _ _ _ _ hkv with h' | h'
          · exact hK kv h'
          · rw [h']
            rw [withOutput_tool_id]
            exact htid
        · refine posInv_congr _ _ (updateMessage_tool_call_positions _)
            (updateMessage_message_parts _) ?_
          intro id₀ p₀ hp₀
          obtain ⟨info₀', hg1', hg2'⟩ := hP id₀ p₀ hp₀
          by_cases hpp : p₀ = p
          · have hideq : id₀ = tid := by
              rw [hpp, hg1] at hg1'
              injection hg1' with h'
              injection h' with h''
              rw [← hg2', ← h'']
              exact hg2
            refine ⟨withOutput info tid c, ?_, ?_⟩
            · rw [hpp]
              show (s.message_parts.set p (Part.toolUI (withOutput info tid c)))[p]?
                = some (Part.toolUI (withOutput info tid c))
              exact List.getElem?_set_eq_of_lt _ hlt
            · rw [withOutput_tool_id, htid, hideq]
          · have hpp' : p ≠ p₀ := fun h' => hpp h'.symm
            refine ⟨info₀', ?_, hg2'⟩
            show (s.message_parts.set p (Part.toolUI (withOutput info tid c)))[p₀]?
              = some (Part.toolUI info₀')
            rw [List.getElem?_set_ne hpp']
            exact hg1'

theorem foldl_user_sim (bs : List ContentBlock) (s : ProcState)
    (hK : KeysInv s) (hP : PosInv s) :
    assocKeys (bs.foldl handleUserBlock s).tool_calls = assocKeys s.tool_calls
    ∧ (bs.foldl handleUserBlock s).message_parts.map partTag = s.message_parts.map partTag
    ∧ KeysInv (bs.foldl handleUserBlock s) ∧ PosInv (bs.foldl handleUserBlock s) := by
  induction bs generalizing s with
  | nil => exact ⟨rfl, rfl, hK, hP⟩
  | cons b rest ih =>
    obtain ⟨h1, h2, _, h4, h5⟩ := userBlock_sim s b hK hP
    obtain ⟨g1, g2, g3, g4⟩ := ih (handleUserBlock s b) h4 h5
    exact ⟨by rw [List.foldl_cons, g1, h1], by rw [List.foldl_cons, g2, h2], g3, g4⟩

theorem event_sim (e : SDKEvent) (he : isMsgEvent e = true) (s : ProcState)
    (hK : KeysInv s) (hP : PosInv s) :
    (assocKeys (handleEvent s e).tool_calls, (handleEvent s e).message_parts.map partTag)
      = obsEvent (assocKeys s.tool_calls, s.message_parts.map partTag) e
    ∧ KeysInv (handleEvent s e) ∧ PosInv (handleEvent s e) := by
  cases e with
  | assistantMsg bs =>
    obtain ⟨h1, h2, h3⟩ := foldl_assistant_sim bs s hK hP
    refine ⟨?_, ?_, ?_⟩
    · show (assocKeys (updateMessage _).tool_calls, (updateMessage _).message_parts.map partTag) = _
      rw [updateMessage_tool_calls, updateMessage_message_parts]
      exact h1
    · exact keysInv_congr _ _ (updateMessage_tool_calls _) h2
    · exact posInv_congr _ _ (updateMessage_tool_call_positions _)
        (updateMessage_message_parts _) h3
  | userMsg bs =>
    obtain ⟨h1, h2, h3, h4⟩ := foldl_user_sim bs s hK hP
    refine ⟨?_, h3, h4⟩
    show (assocKeys (bs.foldl handleUserBlock s).tool_calls,
        (bs.foldl handleUserBlock s).message_parts.map partTag)
      = (assocKeys s.tool_calls, s.message_parts.map partTag)
    rw [h1, h2]
  | resultMsg => exact ⟨rfl, hK, hP⟩
  | systemMsg => exact ⟨rfl, hK, hP⟩
  | preHook n i id => simp [isMsgEvent] at he
  | postHook n r id => simp [isMsgEvent] at he
  | streamFailed err => simp [isMsgEvent] at he

theorem isMsgEvent_not_failed (e : SDKEvent) (he : isMsgEvent e = true) :
    isStreamFailed e = false := by
  cases e <;> first | rfl | simp [isMsgEvent] at he

theorem run_sim (evs : List SDKEvent) (s : ProcState)
    (hall : evs.all isMsgEvent = true) (hK : KeysInv s) (hP : PosInv s) :
    (assocKeys (runEvents s evs).tool_calls, (runEvents s evs).message_parts.map partTag)
      = evs.foldl obsEvent (assocKeys s.tool_calls, s.message_parts.map partTag)
    ∧ KeysInv (runEvents s evs) ∧ PosInv (runEvents s evs) := by
  induction evs generalizing s with
  | nil => exact ⟨rfl, hK, hP⟩
  | cons e rest ih =>
    rw [List.all_cons, Bool.and_eq_true] at hall
    rw [runEvents_cons s e rest (isMsgEvent_not_failed e hall.1)]
    obtain ⟨h1, h2, h3⟩ := event_sim e hall.1 s hK hP
    obtain ⟨g1, g2, g3⟩ := ih (handleEvent s e) hall.2 h2 h3
    refine ⟨?_, g2, g3⟩
    rw [List.foldl_cons, ← h1]
    exact g1

/-- C1: over any turn of protocol message events, the sequence of element
identities in the buffer — hence in the rendered document — equals the
first-sight order of the originating text and tool-invocation events.
Result events never occur in the observer, so the arrival of results
neither moves a tool element nor adds one: the result is substituted in
place at the recorded position. -/
theorem document_order_matches_first_observed (evs : List SDKEvent)
    (h : evs.all isMsgEvent = true) :
    (runEvents initState evs).message_parts.map partTag = firstObserved evs := by
  have hK : KeysInv initState := by
    intro kv hkv
    simp [initState] at hkv
  have hP : PosInv initState := by
    intro id p hp
    simp [initState, assocFind] at hp
  have hsim := run_sim evs initState h hK hP
  have := congrArg Prod.snd hsim.1
  exact this

/-- Witness for C1 at the input of spec Scenario B: the tool element for
"t1" precedes the text "done" even though the result arrives last. -/
theorem document_order_matches_first_observed_witness :
    ([SDKEvent.assistantMsg [ContentBlock.toolUseBlock "t1" "Read" "a.py"],
      SDKEvent.assistantMsg [ContentBlock.textBlock "done"],
      SDKEvent.userMsg [ContentBlock.toolResultBlock "t1" "contents"],
      SDKEvent.resultMsg].all isMsgEvent = true)
    ∧ (runEvents initState
        [SDKEvent.assistantMsg [ContentBlock.toolUseBlock "t1" "Read" "a.py"],
         SDKEvent.assistantMsg [ContentBlock.textBlock "done"],
         SDKEvent.userMsg [ContentBlock.toolResultBlock "t1" "contents"],
         SDKEvent.resultMsg]).message_parts.map partTag
      = firstObserved
        [SDKEvent.assistantMsg [ContentBlock.toolUseBlock "t1" "Read" "a.py"],
         SDKEvent.assistantMsg [ContentBlock.textBlock "done"],
         SDKEvent.userMsg [ContentBlock.toolResultBlock "t1" "contents"],
         SDKEvent.resultMsg] :=
  ⟨by decide,
   document_order_matches_first_observed
     [SDKEvent.assistantMsg [ContentBlock.toolUseBlock "t1" "Read" "a.py"],
      SDKEvent.assistantMsg [ContentBlock.textBlock "done"],
      SDKEvent.userMsg [ContentBlock.toolResultBlock "t1" "contents"],
      SDKEvent.resultMsg] (by decide)⟩

/-! ## Invocations first registered by the pre-tool hook are never rendered (C10) -/

/-- Is this stored part the UI element of the given invocation id? -/
def partIsFor (id : String) : Part → Bool
  | .text _ => false
  | .toolUI info => info.tool_id == id

/-- Registry records carry their own key as `tool_id` (Boolean form). -/
def keysInvBL (m : List (String × ToolCallInfo)) : Bool :=
  m.all fun kv => kv.2.tool_id == kv.1

/-- The invocation id is registered yet invisible: a registry entry exists,
no position is recorded for it, and no buffer element belongs to it (plus
the registry key consistency every reachable state has).  This is exactly
the state `pre_tool_hook` leaves a fresh id in. -/
def hiddenInvocation (s : ProcState) (id : String) : Bool :=
  assocMem s.tool_calls id
    && (assocFind s.tool_call_positions id).isNone
    && s.message_parts.all (fun q => !(partIsFor id q))
    && keysInvBL s.tool_calls

theorem assocMem_assocSet (m : List (String × ToolCallInfo)) (k : String)
    (v : ToolCallInfo) (k' : String) (h : assocMem m k' = true) :
    assocMem (assocSet m k v) k' = true := by
  by_cases hk : k' = k
  · subst hk
    simp [assocMem, assocFind_assocSet_self]
  · rw [assocMem, assocFind_assocSet_ne _ _ _ _ hk]
    exact h

theorem keysInvBL_find (m : List (String × ToolCallInfo)) (tid : String)
    (info : ToolCallInfo) (h : keysInvBL m = true)
    (hf : assocFind m tid = some info) : info.tool_id = tid := by
  have hm := assocFind_mem _ _ _ hf
  have := List.all_eq_true.mp h _ hm
  exact beq_iff_eq.mp this

theorem keysInvBL_assocSet (m : List (String × ToolCallInfo)) (k : String)
    (v : ToolCallInfo) (h : keysInvBL m = true) (hv : v.tool_id = k) :
    keysInvBL (assocSet m k v) = true := by
  apply List.all_eq_true.mpr
  intro kv hkv
  rcases mem_assocSet _ _ _ _ hkv with h' | h'
  · exact List.all_eq_true.mp h _ h'
  · rw [h']
    exact beq_iff_eq.mpr hv

theorem hidden_updateMessage (s : ProcState) (id : String) :
    hiddenInvocation (updateMessage s) id = hiddenInvocation s id := by
  unfold hiddenInvocation
  rw [updateMessage_tool_calls, updateMessage_tool_call_positions,
    updateMessage_message_parts]

theorem hidden_components (s : ProcState) (id : String)
    (h : hiddenInvocation s id = true) :
    assocMem s.tool_calls id = true
    ∧ (assocFind s.tool_call_positions id).isNone = true
    ∧ s.message_parts.all (fun q => !(partIsFor id q)) = true
    ∧ keysInvBL s.tool_calls = true := by
  rw [hiddenInvocation, Bool.and_eq_true, Bool.and_eq_true, Bool.and_eq_true] at h
  exact ⟨h.1.1.1, h.1.1.2, h.1.2, h.2⟩

theorem hidden_intro (s : ProcState) (id : String)
    (h1 : assocMem s.tool_calls id = true)
    (h2 : (assocFind s.tool_call_positions id).isNone = true)
    (h3 : s.message_parts.all (fun q => !(partIsFor id q)) = true)
    (h4 : keysInvBL s.tool_calls = true) : hiddenInvocation s id = true := by
  rw [hiddenInvocation, Bool.and_eq_true, Bool.and_eq_true, Bool.and_eq_true]
  exact ⟨⟨⟨h1, h2⟩, h3⟩, h4⟩

theorem hidden_assistantBlock (s : ProcState) (id : String) (b : ContentBlock)
    (h : hiddenInvocation s id = true) :
    hiddenInvocation (handleAssistantBlock s b) id = true := by
  obtain ⟨h1, h2, h3, h4⟩ := hidden_components s id h
  cases b with
  | toolResultBlock tid c => exact h
  | otherBlock => exact h
  | textBlock t =>
    refine hidden_intro _ _ h1 h2 ?_ h4
    show (s.message_parts ++ [Part.text t]).all (fun q => !(partIsFor id q)) = true
    rw [List.all_append, h3]
    simp [partIsFor]
  | toolUseBlock id' name input =>
    by_cases hm : assocMem s.tool_calls id' = true
    · have hstep : handleAssistantBlock s (ContentBlock.toolUseBlock id' name input) = s := by
        simp [handleAssistantBlock, hm]
      rw [hstep]
      exact h
    · rw [Bool.not_eq_true] at hm
      have hne : id' ≠ id := by
        intro he
        rw [he, h1] at hm
        cases hm
      have hstep : handleAssistantBlock s (ContentBlock.toolUseBlock id' name input)
          = { s with
              tool_calls := assocSet s.tool_calls id'
                { tool_id := id', index := s.tool_calls.length, type := "function",
                  function_name := name, function_args := input, output := none }
              message_parts := s.message_parts ++ [Part.toolUI
                { tool_id := id', index := s.tool_calls.length, type := "function",
                  function_name := name, function_args := input, output := none }]
              tool_call_positions := assocSet s.tool_call_positions id'
                s.message_parts.length } := by
        simp [handleAssistantBlock, hm]
      rw [hstep]
      refine hidden_intro _ _ ?_ ?_ ?_ ?_
      · exact assocMem_assocSet _ _ _ _ h1
      · show (assocFind (assocSet s.tool_call_positions id' s.message_parts.length) id).isNone = true
        rw [assocFind_assocSet_ne _ _ _ _ (Ne.symm hne)]
        exact h2
      · show (s.message_parts ++ [Part.toolUI _]).all (fun q => !(partIsFor id q)) = true
        rw [List.all_append, h3]
        simp [partIsFor, hne]
      · exact keysInvBL_assocSet _ _ _ h4 rfl

theorem hidden_userBlock (s : ProcState) (id : String) (b : ContentBlock)
    (h : hiddenInvocation s id = true) :
    hiddenInvocation (handleUserBlock s b) id = true := by
  obtain ⟨h1, h2, h3, h4⟩ := hidden_components s id h
  cases b with
  | textBlock t => exact h
  | toolUseBlock id' n i => exact h
  | otherBlock => exact h
  | toolResultBlock tid c =>
    cases hf : assocFind s.tool_calls tid with
    | none =>
      have hstep : handleUserBlock s (ContentBlock.toolResultBlock tid c) = s := by
        simp only [handleUserBlock, hf]
      rw [hstep]
      exact h
    | some info =>
      have htid : info.tool_id = tid := keysInvBL_find _ _ _ h4 hf
      cases hp : assocFind s.tool_call_positions tid with
      | none =>
        have hstep : handleUserBlock s (ContentBlock.toolResultBlock tid c)
            = updateMessage
                { s with tool_calls := assocSet s.tool_calls tid (withOutput info tid c) } := by
          simp only [handleUserBlock, hf, hp, withOutput]
        rw [hstep, hidden_updateMessage]
        refine hidden_intro _ _ ?_ h2 h3 ?_
        · exact assocMem_assocSet _ _ _ _ h1
        · refine keysInvBL_assocSet _ _ _ h4 ?_
          rw [withOutput_tool_id]
          exact htid
      | some p =>
        have hne : tid ≠ id := by
          intro he
          rw [he] at hp
          rw [hp] at h2
          simp at h2
        have hstep : handleUserBlock s (ContentBlock.toolResultBlock tid c)
            = updateMessage
                { s with
                  tool_calls := assocSet s.tool_calls tid (withOutput info tid c)
                  message_parts := s.message_parts.set p (Part.toolUI (withOutput info tid c)) } := by
          simp only [handleUserBlock, hf, hp, withOutput]
        rw [hstep, hidden_updateMessage]
        refine hidden_intro _ _ ?_ h2 ?_ ?_
        · exact assocMem_assocSet _ _ _ _ h1
        · show (s.message_parts.set p (Part.toolUI (withOutput info tid c))).all
            (fun q => !(partIsFor id q)) = true
          apply all_set _ _ _ _ h3
          show (!(partIsFor id (Part.toolUI (withOutput info tid c)))) = true
          have hb : partIsFor id (Part.toolUI (withOutput info tid c)) = false := by
            show ((withOutput info tid c).tool_id == id) = false
            rw [withOutput_tool_id, htid]
            exact beq_eq_false_iff_ne.mpr hne
          rw [hb]
          rfl
        · refine keysInvBL_assocSet _ _ _ h4 ?_
          rw [withOutput_tool_id]
          exact htid

theorem hidden_event (s : ProcState) (id : String) (e : SDKEvent)
    (h : hiddenInvocation s id = true) :
    hiddenInvocation (handleEvent s e) id = true := by
  cases e with
  | resultMsg => exact h
  | systemMsg => exact h
  | streamFailed err => exact h
  | assistantMsg bs =>
    show hiddenInvocation (updateMessage (bs.foldl handleAssistantBlock s)) id = true
    rw [hidden_updateMessage]
    induction bs generalizing s with
    | nil => exact h
    | cons b rest ih =>
      rw [List.foldl_cons]
      exact ih (handleAssistantBlock s b) (hidden_assistantBlock s id b h)
  | userMsg bs =>
    show hiddenInvocation (bs.foldl handleUserBlock s) id = true
    induction bs generalizing s with
    | nil => exact h
    | cons b rest ih =>
      rw [List.foldl_cons]
      exact ih (handleUserBlock s b) (hidden_userBlock s id b h)
  | preHook n i id' =>
    show hiddenInvocation (updateMessage _) id = true
    rw [hidden_updateMessage]
    obtain ⟨h1, h2, h3, h4⟩ := hidden_components s id h
    refine hidden_intro _ _ ?_ h2 h3 ?_
    · exact assocMem_assocSet _ _ _ _ h1
    · exact keysInvBL_assocSet _ _ _ h4 rfl
  | postHook n r id' =>
    obtain ⟨h1, h2, h3, h4⟩ := hidden_components s id h
    cases hf : assocFind s.tool_calls id' with
    | none =>
      have hstep : handleEvent s (SDKEvent.postHook n r id') = s := by
        simp only [handleEvent, postToolHook, hf]
      rw [hstep]
      exact h
    | some info =>
      have htid : info.tool_id = id' := keysInvBL_find _ _ _ h4 hf
      have hstep : handleEvent s (SDKEvent.postHook n r id')
          = updateMessage
              { s with tool_calls := assocSet s.tool_calls id' (withHookOutput info id' n r) } := by
        simp only [handleEvent, postToolHook, hf, withHookOutput]
      rw [hstep, hidden_updateMessage]
      refine hidden_intro _ _ ?_ h2 h3 ?_
      · exact assocMem_assocSet _ _ _ _ h1
      · refine keysInvBL_assocSet _ _ _ h4 ?_
        rw [withHookOutput_tool_id]
        exact htid

theorem hidden_run (s : ProcState) (id : String) (evs : List SDKEvent)
    (h : hiddenInvocation s id = true) :
    hiddenInvocation (runEvents s evs) id = true := by
  induction evs generalizing s with
  | nil => exact h
  | cons e rest ih =>
    cases hse : isStreamFailed e with
    | true =>
      cases e with
      | streamFailed err => exact h
      | assistantMsg bs => simp [isStreamFailed] at hse
      | userMsg bs => simp [isStreamFailed] at hse
      | resultMsg => simp [isStreamFailed] at hse
      | systemMsg => simp [isStreamFailed] at hse
      | preHook a b c => simp [isStreamFailed] at hse
      | postHook a b c => simp [isStreamFailed] at hse
    | false =>
      rw [runEvents_cons s e rest hse]
      exact ih (handleEvent s e) (hidden_event s id e h)

/-- C10: once an invocation id is registered without a recorded position
and without a buffer element — exactly the state `pre_tool_hook` creates
for a fresh id — no later event ever records a position for it or appends
a buffer element belonging to it: the invocation, and any result for it,
never appears in the rendered document. -/
theorem prehook_first_invocation_never_rendered (s : ProcState) (id : String)
    (evs : List SDKEvent) (h : hiddenInvocation s id = true) :
    assocFind (runEvents s evs).tool_call_positions id = none
    ∧ (runEvents s evs).message_parts.all (fun q => !(partIsFor id q)) = true := by
  obtain ⟨_, h2, h3, _⟩ := hidden_components _ _ (hidden_run s id evs h)
  exact ⟨Option.isNone_iff_eq_none.mp h2, h3⟩

/-- Witness for C10: the pre-tool hook registers "t1" first; the later
tool-use block and result for "t1" leave no trace in the buffer. -/
theorem prehook_first_invocation_never_rendered_witness :
    hiddenInvocation (preToolHook initState "Read" "args" "t1") "t1" = true
    ∧ (assocFind (runEvents (preToolHook initState "Read" "args" "t1")
          [SDKEvent.assistantMsg [ContentBlock.toolUseBlock "t1" "Read" "args",
            ContentBlock.textBlock "hi"],
           SDKEvent.userMsg [ContentBlock.toolResultBlock "t1" "out"]]).tool_call_positions "t1" = none
      ∧ (runEvents (preToolHook initState "Read" "args" "t1")
          [SDKEvent.assistantMsg [ContentBlock.toolUseBlock "t1" "Read" "args",
            ContentBlock.textBlock "hi"],
           SDKEvent.userMsg [ContentBlock.toolResultBlock "t1" "out"]]).message_parts.all
          (fun q => !(partIsFor "t1" q)) = true) :=
  ⟨by decide,
   prehook_first_invocation_never_rendered (preToolHook initState "Read" "args" "t1") "t1"
     [SDKEvent.assistantMsg [ContentBlock.toolUseBlock "t1" "Read" "args",
       ContentBlock.textBlock "hi"],
      SDKEvent.userMsg [ContentBlock.toolResultBlock "t1" "out"]] (by decide)⟩

end JupyterAI
